import Mathlib

/-
Verification of the Mollang-to-C++ transpiler (src/compiler.cpp).

C++ std::string values are modelled as lists of byte values (List Nat),
matching the byte-oriented way the compiler manipulates them.  Korean
source glyphs are multi-byte UTF-8 sequences, so every string constant is
converted to its UTF-8 byte list by the helper bs.  The process-wide
mutable compiler state (the two name maps and the two counters) is passed
explicitly as a GState value.  General recursion that the C++ expresses
as loops is modelled with an explicit fuel argument; with the fuel the
callers supply, the fuel never runs out on terminating inputs.
-/

/-- UTF-8 encoding of one code point, as byte values. -/
def utf8Bytes (c : Char) : List Nat :=
  let n := c.toNat
  if n < 128 then [n]
  else if n < 2048 then [192 + n / 64, 128 + n % 64]
  else if n < 65536 then [224 + n / 4096, 128 + (n / 64) % 64, 128 + n % 64]
  else [240 + n / 262144, 128 + (n / 4096) % 64, 128 + (n / 64) % 64, 128 + n % 64]

/-- The UTF-8 bytes of a string literal, the byte-list view of a std::string. -/
def bs (s : String) : List Nat :=
  s.data.foldr (fun c acc => utf8Bytes c ++ acc) []

/-- C locale isspace, applied by the lexer to single bytes. -/
def isspaceB (b : Nat) : Bool :=
  b == 32 || b == 9 || b == 10 || b == 11 || b == 12 || b == 13

/-- ASCII decimal digit test. -/
def isDigitB (b : Nat) : Bool :=
  48 ≤ b && b ≤ 57

/-- The middle loop of is_variable: windows of three bytes starting at
offsets 3, 6, ... strictly below length - 3 must each equal the filler
glyph 아.  The fuel argument makes the recursion structural; is_variable
passes the byte length, which always exceeds the iteration count. -/
def midLoop : Nat → List Nat → Nat → Bool
  | 0, _, _ => true
  | fuel + 1, t, i =>
    if i < t.length - 3 then
      decide ((t.drop i).take 3 = bs "아") && midLoop fuel t (i + 3)
    else true

/-- is_variable from compiler.cpp: the word 밥, or 바 then zero or more 아
then 압, checked by byte offsets in steps of three. -/
def is_variable (token : List Nat) : Bool :=
  if token = bs "밥" then true
  else if 6 ≤ token.length ∧ token.take 3 = bs "바" ∧
          token.drop (token.length - 3) = bs "압" then
    midLoop token.length token 3
  else false

inductive TokenType where
  | KEYWORD
  | IDENTIFIER
  | NUMBER
  | STRING
  | SYMBOL
  | END_OF_FILE
  deriving DecidableEq, Repr

structure Token where
  type : TokenType
  value : List Nat
  deriving DecidableEq, Repr

/-- The ways a compilation can fail, mirroring the runtime errors thrown in
compiler.cpp plus the uncaught std::out_of_range that std::stoi raises, and
the fuel sentinel of the embedding. -/
inductive CompErr where
  | stoiOutOfRange
  | eofPeek
  | eofConsume
  | invalidStatementStart (v : List Nat)
  | invalidExprTerm (v : List Nat)
  | unknownOperator (v : List Nat)
  | outOfFuel
  deriving DecidableEq, Repr

/-- The fixed reserved-keyword set of tokenize. -/
def keywordList : List (List Nat) :=
  [bs "은", bs "입", bs "몰", bs "캠프", bs "퇴근", bs "스크럼", bs "뭐먹",
   bs "덧셈", bs "합", bs "더하기", bs "곱셈", bs "곱",
   bs "같", bs "작", bs "같작", bs "작같",
   bs "커서", bs "지피티", bs "제미나이", bs "클로드", bs "클라인", bs "그록"]

/-- Value of an ASCII digit run, most significant first. -/
def digitsVal (ds : List Nat) : Nat :=
  ds.foldl (fun a d => a * 10 + (d - 48)) 0

inductive StoiRes where
  | ok (v : Int)
  | invalid
  | range
  deriving DecidableEq, Repr

/-- Modelled from the std::stoi library semantics used at compiler.cpp line
90: skip leading whitespace, read an optional sign and then a maximal run
of decimal digits; with no digit the call throws invalid_argument (caught
by tokenize), and a value outside the int range throws out_of_range
(uncaught, so it aborts the compilation).  Note stoi accepts a numeric
prefix and ignores trailing characters. -/
def stoiB (w : List Nat) : StoiRes :=
  let t := w.dropWhile isspaceB
  let p : Bool × List Nat :=
    match t with
    | 45 :: r => (true, r)
    | 43 :: r => (false, r)
    | _ => (false, t)
  let ds := p.2.takeWhile isDigitB
  if ds = [] then .invalid
  else
    let v := digitsVal ds
    if (if p.1 then v ≤ 2147483648 else v ≤ 2147483647) then
      .ok (if p.1 then -(v : Int) else (v : Int))
    else .range

def eofToken : Token := ⟨.END_OF_FILE, []⟩

/-- A byte ends a candidate word when it is whitespace or a bracket. -/
def wordBreak (b : Nat) : Bool :=
  isspaceB b || b == 91 || b == 93

/-- The scanning loop of tokenize.  Byte 91 is the open bracket, 93 the
close bracket, 34 the double quote, 39 the single quote.  The C++ loop
advances by at least one byte per iteration, so the fuel passed by
tokenize (length + 1) always suffices. -/
def tokLoop : Nat → List Nat → Except CompErr (List Token)
  | _, [] => .ok [eofToken]
  | 0, _ :: _ => .error .outOfFuel
  | fuel + 1, c :: rest =>
    if isspaceB c then tokLoop fuel rest
    else if c == 91 || c == 93 then
      (fun ts => ⟨.SYMBOL, [c]⟩ :: ts) <$> tokLoop fuel rest
    else if c == 34 || c == 39 then
      let body := rest.takeWhile (fun b => decide ¬ b = c)
      let rest2 :=
        match rest.dropWhile (fun b => decide ¬ b = c) with
        | [] => []
        | _ :: u => u
      (fun ts => ⟨.STRING, body⟩ :: ts) <$> tokLoop fuel rest2
    else
      let w := (c :: rest).takeWhile (fun b => ! wordBreak b)
      let rest2 := (c :: rest).dropWhile (fun b => ! wordBreak b)
      let tk : Except CompErr Token :=
        if w ∈ keywordList then .ok ⟨.KEYWORD, w⟩
        else if is_variable w then .ok ⟨.IDENTIFIER, w⟩
        else
          match stoiB w with
          | .ok _ => .ok ⟨.NUMBER, w⟩
          | .invalid => .ok ⟨.IDENTIFIER, w⟩
          | .range => .error .stoiOutOfRange
      match tk with
      | .error e => .error e
      | .ok tok => (fun ts => tok :: ts) <$> tokLoop fuel rest2

/-- tokenize from compiler.cpp: scan the byte list and append the END
token. -/
def tokenize (code : List Nat) : Except CompErr (List Token) :=
  tokLoop (code.length + 1) code

/-- The AST of compiler.cpp, one constructor per node struct. -/
inductive ASTNode where
  | num (value : List Nat)
  | str (value : List Nat)
  | varRef (name : List Nat)
  | input
  | binop (left : ASTNode) (op : List Nat) (right : ASTNode)
  | assign (var_name : List Nat) (expr : ASTNode)
  | print (expr : ASTNode)
  | ifS (condition : ASTNode) (body : List ASTNode)
  | whileS (condition : ASTNode) (body : List ASTNode)
  | funcdef (name : List Nat) (body : List ASTNode)
  | funccall (name : List Nat)
  | ret (expr : ASTNode)
  deriving Repr

/-- The process-wide compiler state: the two name maps (kept in key order,
as std::map iterates them) and the two counters. -/
structure GState where
  variable_map : List (List Nat × List Nat)
  var_counter : Nat
  function_map : List (List Nat × List Nat)
  func_counter : Nat
  deriving DecidableEq, Repr

/-- Lexicographic byte order, the ordering std::map uses for string keys. -/
def bytesLt : List Nat → List Nat → Bool
  | [], [] => false
  | [], _ :: _ => true
  | _ :: _, [] => false
  | a :: ra, b :: rb => if a < b then true else if b < a then false else bytesLt ra rb

/-- Lookup in an association list modelling std::map::find. -/
def lookupM : List (List Nat × List Nat) → List Nat → Option (List Nat)
  | [], _ => none
  | (k, v) :: t, q => if q = k then some v else lookupM t q

/-- Key-ordered insertion modelling std::map insertion; an existing key is
left unchanged (get_cpp_var and get_cpp_func only insert fresh keys). -/
def insertM : List (List Nat × List Nat) → List Nat → List Nat → List (List Nat × List Nat)
  | [], k, v => [(k, v)]
  | (k2, v2) :: t, k, v =>
    if bytesLt k k2 then (k, v) :: (k2, v2) :: t
    else if k = k2 then (k2, v2) :: t
    else (k2, v2) :: insertM t k v

/-- Decimal digits of n, most significant first; the fuel n + 1 always
covers the digit count, keeping the recursion structural. -/
def natBytesGo : Nat → Nat → List Nat
  | 0, _ => []
  | fuel + 1, n =>
    if n < 10 then [48 + n] else natBytesGo fuel (n / 10) ++ [48 + n % 10]

/-- The bytes of std::to_string for a nonnegative int. -/
def natBytes (n : Nat) : List Nat :=
  natBytesGo (n + 1) n

/-- The generated name for the i-th fresh variable. -/
def varNameB (i : Nat) : List Nat :=
  bs "var_" ++ natBytes i

/-- The generated name for the i-th fresh function. -/
def funcNameB (i : Nat) : List Nat :=
  bs "func_" ++ natBytes i

/-- get_cpp_var from compiler.cpp, with the global state made explicit. -/
def get_cpp_var (mol_var : List Nat) (g : GState) : List Nat × GState :=
  match lookupM g.variable_map mol_var with
  | some v => (v, g)
  | none =>
    let v := varNameB g.var_counter
    (v, { g with variable_map := insertM g.variable_map mol_var v,
                 var_counter := g.var_counter + 1 })

/-- get_cpp_func from compiler.cpp, with the global state made explicit. -/
def get_cpp_func (mol_func : List Nat) (g : GState) : List Nat × GState :=
  match lookupM g.function_map mol_func with
  | some v => (v, g)
  | none =>
    let v := funcNameB g.func_counter
    (v, { g with function_map := insertM g.function_map mol_func v,
                 func_counter := g.func_counter + 1 })

/-- Parser::peek. -/
def peekT (toks : List Token) (pos : Nat) : Except CompErr Token :=
  match toks[pos]? with
  | some t => .ok t
  | none => .error .eofPeek

/-- Parser::consume. -/
def consumeT (toks : List Token) (pos : Nat) : Except CompErr (Token × Nat) :=
  match toks[pos]? with
  | some t => .ok (t, pos + 1)
  | none => .error .eofConsume

/-- Parser::get_operator: the fixed keyword-to-operator table. -/
def get_operator (t : List Nat) : Except CompErr (List Nat) :=
  if t = bs "덧셈" ∨ t = bs "합" ∨ t = bs "더하기" then .ok (bs "+")
  else if t = bs "곱셈" ∨ t = bs "곱" then .ok (bs "*")
  else if t = bs "같" then .ok (bs "==")
  else if t = bs "작" then .ok (bs "<")
  else if t = bs "같작" ∨ t = bs "작같" then .ok (bs "<=")
  else .error (.unknownOperator t)

/-- Parser::parse_simple_expr. -/
def parse_simple_expr (toks : List Token) (pos : Nat) : Except CompErr (ASTNode × Nat) := do
  let (t, p1) ← consumeT toks pos
  if t.type = .NUMBER then .ok (.num t.value, p1)
  else if t.type = .STRING then .ok (.str t.value, p1)
  else if t.type = .IDENTIFIER then .ok (.varRef t.value, p1)
  else if t.value = bs "뭐먹" then .ok (.input, p1)
  else if t.value = bs "커서" then .ok (.str (bs "커서는 신이야"), p1)
  else if t.value = bs "지피티" then .ok (.str (bs "지피티는 요즘 애매해"), p1)
  else if t.value = bs "제미나이" then .ok (.str (bs "제미나이는 잘 따라가는중"), p1)
  else if t.value = bs "클로드" then .ok (.str (bs "클로드는 LLM 중 코딩 끝판왕"), p1)
  else if t.value = bs "클라인" then .ok (.str (bs "클라인도 레전드입니다… 꼭 쓰세요"), p1)
  else if t.value = bs "그록" then .ok (.str (bs "그록 누가씀?"), p1)
  else .error (.invalidExprTerm t.value)

mutual

/-- Parser::parse_statement.  Note the assignment branch consumes the token
after the variable name without inspecting it (the C++ comment reads
consume(); with the annotation 은). -/
def parse_stmt : Nat → List Token → Nat → Except CompErr (ASTNode × Nat)
  | 0, _, _ => .error .outOfFuel
  | fuel + 1, toks, pos => do
    let t ← peekT toks pos
    if is_variable t.value then do
      let (nameTok, p1) ← consumeT toks pos
      let (_, p2) ← consumeT toks p1
      let (e, p3) ← parse_expr fuel toks p2
      .ok (.assign nameTok.value e, p3)
    else if t.value = bs "스크럼" then do
      let (_, p1) ← consumeT toks pos
      let (e, p2) ← parse_expr fuel toks p1
      .ok (.print e, p2)
    else if t.value = bs "입" then do
      let (_, p1) ← consumeT toks pos
      let (c, p2) ← parse_expr fuel toks p1
      let (b, p3) ← parse_block fuel toks p2
      .ok (.ifS c b, p3)
    else if t.value = bs "몰" then do
      let (_, p1) ← consumeT toks pos
      let (c, p2) ← parse_expr fuel toks p1
      let (b, p3) ← parse_block fuel toks p2
      .ok (.whileS c b, p3)
    else if (bs "캠프").isPrefixOf t.value then do
      let (nameTok, p1) ← consumeT toks pos
      let t2 ← peekT toks p1
      if t2.value = bs "[" then do
        let (b, p2) ← parse_block fuel toks p1
        .ok (.funcdef nameTok.value b, p2)
      else
        .ok (.funccall nameTok.value, p1)
    else if t.value = bs "퇴근" then do
      let (_, p1) ← consumeT toks pos
      let (e, p2) ← parse_expr fuel toks p1
      .ok (.ret e, p2)
    else
      .error (.invalidStatementStart t.value)

/-- Parser::parse_block: consume the open bracket, then the loop. -/
def parse_block : Nat → List Token → Nat → Except CompErr (List ASTNode × Nat)
  | 0, _, _ => .error .outOfFuel
  | fuel + 1, toks, pos => do
    let (_, p1) ← consumeT toks pos
    parse_blockLoop fuel toks p1

/-- The statement loop of Parser::parse_block, including the final consume
of the close bracket. -/
def parse_blockLoop : Nat → List Token → Nat → Except CompErr (List ASTNode × Nat)
  | 0, _, _ => .error .outOfFuel
  | fuel + 1, toks, pos => do
    let t ← peekT toks pos
    if t.value = bs "]" then do
      let (_, p1) ← consumeT toks pos
      .ok ([], p1)
    else do
      let (s, p1) ← parse_stmt fuel toks pos
      let (rest, p2) ← parse_blockLoop fuel toks p1
      .ok (s :: rest, p2)

/-- Parser::parse_expression: one simple term, then the operator loop. -/
def parse_expr : Nat → List Token → Nat → Except CompErr (ASTNode × Nat)
  | 0, _, _ => .error .outOfFuel
  | fuel + 1, toks, pos => do
    let (l, p1) ← parse_simple_expr toks pos
    parse_exprLoop fuel toks p1 l

/-- The operator loop of Parser::parse_expression: flat and
left-associative, stopping at statement keywords. -/
def parse_exprLoop : Nat → List Token → Nat → ASTNode → Except CompErr (ASTNode × Nat)
  | 0, _, _, _ => .error .outOfFuel
  | fuel + 1, toks, pos, left => do
    let t ← peekT toks pos
    if t.type = .KEYWORD then
      if t.value = bs "은" ∨ t.value = bs "입" ∨ t.value = bs "몰" ∨
         t.value = bs "스크럼" ∨ t.value = bs "캠프" ∨ t.value = bs "퇴근" then
        .ok (left, pos)
      else if t.value = bs "[" ∨ t.value = bs "]" then
        .ok (left, pos)
      else do
        let (_, p1) ← consumeT toks pos
        let op ← get_operator t.value
        let (r, p2) ← parse_simple_expr toks p1
        parse_exprLoop fuel toks p2 (.binop left op r)
    else
      .ok (left, pos)

end

/-- Parser::parse: statements until the END token. -/
def parse_program : Nat → List Token → Nat → Except CompErr (List ASTNode × Nat)
  | 0, _, _ => .error .outOfFuel
  | fuel + 1, toks, pos => do
    let t ← peekT toks pos
    if t.type = .END_OF_FILE then .ok ([], pos)
    else do
      let (s, p1) ← parse_stmt fuel toks pos
      let (rest, p2) ← parse_program fuel toks p1
      .ok (s :: rest, p2)

mutual

/-- collect_symbols from compiler.cpp: pre-register every variable and
function name, in the dynamic_cast dispatch order of the source. -/
def collectNode : ASTNode → GState → GState
  | .assign n e, g => collectNode e (get_cpp_var n g).2
  | .print e, g => collectNode e g
  | .ifS c b, g => collectList b (collectNode c g)
  | .whileS c b, g => collectList b (collectNode c g)
  | .funcdef n b, g => collectList b (get_cpp_func n g).2
  | .funccall n, g => (get_cpp_func n g).2
  | .ret e, g => collectNode e g
  | .binop l _ r, g => collectNode r (collectNode l g)
  | .varRef n, g => (get_cpp_var n g).2
  | .num _, g => g
  | .str _, g => g
  | .input, g => g

/-- collect_symbols over a statement sequence, left to right. -/
def collectList : List ASTNode → GState → GState
  | [], g => g
  | h :: t, g => collectList t (collectNode h g)

end

mutual

/-- The generate methods of the AST node structs, threading the name
state that the C++ keeps in globals. -/
def genNode : ASTNode → GState → List Nat × GState
  | .num v, g => (bs "MolObject(" ++ v ++ bs ")", g)
  | .str v, g => (bs "MolObject(std::string(\"" ++ v ++ bs "\"))", g)
  | .varRef n, g => get_cpp_var n g
  | .input, g => (bs "mollang_input()", g)
  | .binop l op r, g =>
    let (ls, g1) := genNode l g
    let (rs, g2) := genNode r g1
    (bs "(" ++ ls ++ bs " " ++ op ++ bs " " ++ rs ++ bs ")", g2)
  | .assign n e, g =>
    let (v, g1) := get_cpp_var n g
    let (es, g2) := genNode e g1
    (v ++ bs " = " ++ es ++ bs ";", g2)
  | .print e, g =>
    let (es, g1) := genNode e g
    (bs "mollang_print(" ++ es ++ bs ");", g1)
  | .ifS c b, g =>
    let (cs, g1) := genNode c g
    let (bodyS, g2) := genSeq b g1
    (bs "if (std::get<bool>(" ++ cs ++ bs ".value)) \x7b\n" ++ bodyS ++ bs "\x7d", g2)
  | .whileS c b, g =>
    let (cs, g1) := genNode c g
    let (bodyS, g2) := genSeq b g1
    (bs "while (std::get<bool>(" ++ cs ++ bs ".value)) \x7b\n" ++ bodyS ++ bs "\x7d", g2)
  | .funcdef n b, g =>
    let (fn, g1) := get_cpp_func n g
    let (bodyS, g2) := genSeqF b g1
    (bs "MolObject " ++ fn ++ bs "() \x7b\n" ++ bodyS ++ bs "return MolObject();\n\x7d", g2)
  | .funccall n, g =>
    let (fn, g1) := get_cpp_func n g
    (fn ++ bs "();", g1)
  | .ret e, g =>
    let (es, g1) := genNode e g
    (bs "return " ++ es ++ bs ";", g1)

/-- Body rendering used by IfNode and WhileNode generate: four-space
indent and newline per statement. -/
def genSeq : List ASTNode → GState → List Nat × GState
  | [], g => ([], g)
  | h :: t, g =>
    let (s1, g1) := genNode h g
    let (s2, g2) := genSeq t g1
    (bs "    " ++ s1 ++ bs "\n" ++ s2, g2)

/-- Body rendering used by FuncDefNode generate: newline per statement,
no indent. -/
def genSeqF : List ASTNode → GState → List Nat × GState
  | [], g => ([], g)
  | h :: t, g =>
    let (s1, g1) := genNode h g
    let (s2, g2) := genSeqF t g1
    (s1 ++ bs "\n" ++ s2, g2)

end

def isFuncDef : ASTNode → Bool
  | .funcdef _ _ => true
  | _ => false

/-- The function-definition pass of generate_cpp_code: each FuncDef body
followed by a blank line, in AST order. -/
def genTops : List ASTNode → GState → List Nat × GState
  | [], g => ([], g)
  | h :: t, g =>
    if isFuncDef h then
      let (s1, g1) := genNode h g
      let (s2, g2) := genTops t g1
      (s1 ++ bs "\n\n" ++ s2, g2)
    else genTops t g

/-- The main-function pass of generate_cpp_code: each top-level statement
that is not a FuncDef, indented, in source order. -/
def genMains : List ASTNode → GState → List Nat × GState
  | [], g => ([], g)
  | h :: t, g =>
    if isFuncDef h then genMains t g
    else
      let (s1, g1) := genNode h g
      let (s2, g2) := genMains t g1
      (bs "    " ++ s1 ++ bs "\n" ++ s2, g2)

/-- The forward-declaration block: one prototype line per entry of the
function map, in map order. -/
def protoSec (g : GState) : List Nat :=
  (g.function_map.map (fun p => bs "MolObject " ++ p.2 ++ bs "();\n")).flatten

/-- The global-variable block: one declaration line per entry of the
variable map, in map order. -/
def globalSec (g : GState) : List Nat :=
  (g.variable_map.map (fun p => bs "MolObject " ++ p.2 ++ bs ";\n")).flatten
/-- The fixed runtime preamble emitted verbatim at the start of every generated document. -/
def preamble : List Nat :=
  bs (
    "#include <iostream>\n" ++
    "#include <string>\n" ++
    "#include <vector>\n" ++
    "#include <variant>\n" ++
    "#include <stdexcept>\n" ++
    "\n" ++
    "// A variant type to handle Mollang\x27s dynamic types\n" ++
    "struct MolObject \x7b\n" ++
    "    std::variant<std::monostate, int, std::string, bool> value;\n" ++
    "\n" ++
    "    MolObject() : value(std::monostate\x7b\x7d) \x7b\x7d\n" ++
    "    MolObject(int v) : value(v) \x7b\x7d\n" ++
    "    MolObject(const std::string& v) : value(v) \x7b\x7d\n" ++
    "    MolObject(const char* v) : value(std::string(v)) \x7b\x7d\n" ++
    "    MolObject(bool v) : value(v) \x7b\x7d\n" ++
    "\x7d;\n" ++
    "\n" ++
    "// Overloads for operators\n" ++
    "MolObject operator+(const MolObject& a, const MolObject& b) \x7b\n" ++
    "    if (std::holds_alternative<int>(a.value) && std::holds_alternative<int>(b.value)) \x7b\n" ++
    "        return MolObject(std::get<int>(a.value) + std::get<int>(b.value));\n" ++
    "    \x7d\n" ++
    "    if (std::holds_alternative<std::string>(a.value) && std::holds_alternative<std::string>(b.value)) \x7b\n" ++
    "        return MolObject(std::get<std::string>(a.value) + std::get<std::string>(b.value));\n" ++
    "    \x7d\n" ++
    "    throw std::runtime_error(\"Unsupported operand types for +\");\n" ++
    "\x7d\n" ++
    "\n" ++
    "MolObject operator*(const MolObject& a, const MolObject& b) \x7b\n" ++
    "    if (std::holds_alternative<std::string>(a.value) && std::holds_alternative<int>(b.value)) \x7b\n" ++
    "        std::string s = \"\";\n" ++
    "        for (int i = 0; i < std::get<int>(b.value); ++i) \x7b\n" ++
    "            s += std::get<std::string>(a.value);\n" ++
    "        \x7d\n" ++
    "        return MolObject(s);\n" ++
    "    \x7d\n" ++
    "    if (std::holds_alternative<int>(a.value) && std::holds_alternative<int>(b.value)) \x7b\n" ++
    "        return MolObject(std::get<int>(a.value) * std::get<int>(b.value));\n" ++
    "    \x7d\n" ++
    "    throw std::runtime_error(\"Unsupported operand types for *\");\n" ++
    "\x7d\n" ++
    "\n" ++
    "MolObject operator<(const MolObject& a, const MolObject& b) \x7b\n" ++
    "    if (std::holds_alternative<int>(a.value) && std::holds_alternative<int>(b.value)) \x7b\n" ++
    "        return MolObject(std::get<int>(a.value) < std::get<int>(b.value));\n" ++
    "    \x7d\n" ++
    "    throw std::runtime_error(\"Unsupported operand types for <\");\n" ++
    "\x7d\n" ++
    "\n" ++
    "MolObject operator<=(const MolObject& a, const MolObject& b) \x7b\n" ++
    "    if (std::holds_alternative<int>(a.value) && std::holds_alternative<int>(b.value)) \x7b\n" ++
    "        return MolObject(std::get<int>(a.value) <= std::get<int>(b.value));\n" ++
    "    \x7d\n" ++
    "    throw std::runtime_error(\"Unsupported operand types for <=\");\n" ++
    "\x7d\n" ++
    "\n" ++
    "MolObject operator==(const MolObject& a, const MolObject& b) \x7b\n" ++
    "    if (std::holds_alternative<int>(a.value) && std::holds_alternative<int>(b.value)) \x7b\n" ++
    "        return MolObject(std::get<int>(a.value) == std::get<int>(b.value));\n" ++
    "    \x7d\n" ++
    "    if (std::holds_alternative<std::string>(a.value) && std::holds_alternative<std::string>(b.value)) \x7b\n" ++
    "        return MolObject(std::get<std::string>(a.value) == std::get<std::string>(b.value));\n" ++
    "    \x7d\n" ++
    "    return MolObject(false);\n" ++
    "\x7d\n" ++
    "\n" ++
    "// Helper functions\n" ++
    "void mollang_print(const MolObject& obj) \x7b\n" ++
    "    if (std::holds_alternative<int>(obj.value)) \x7b\n" ++
    "        std::cout << std::get<int>(obj.value);\n" ++
    "    \x7d else if (std::holds_alternative<std::string>(obj.value)) \x7b\n" ++
    "        std::cout << std::get<std::string>(obj.value);\n" ++
    "    \x7d else if (std::holds_alternative<bool>(obj.value)) \x7b\n" ++
    "        std::cout << (std::get<bool>(obj.value) ? \"true\" : \"false\");\n" ++
    "    \x7d\n" ++
    "    std::cout << std::endl;\n" ++
    "\x7d\n" ++
    "\n" ++
    "MolObject mollang_input() \x7b\n" ++
    "    std::string line;\n" ++
    "    std::getline(std::cin, line);\n" ++
    "    try \x7b\n" ++
    "        return MolObject(std::stoi(line));\n" ++
    "    \x7d catch (const std::invalid_argument&) \x7b\n" ++
    "        return MolObject(line);\n" ++
    "    \x7d\n" ++
    "\x7d\n")

/-- generate_cpp_code from compiler.cpp: preamble, prototypes, globals,
function bodies, then the main function. -/
def generate_cpp_code (ast : List ASTNode) (g : GState) : List Nat :=
  let protos := protoSec g
  let globals := globalSec g
  let bodies := genTops ast g
  let mains := genMains ast bodies.2
  preamble ++ protos ++ bs "\n" ++ globals ++ bs "\n" ++ bodies.1 ++
    bs "int main() \x7b\n" ++ mains.1 ++ bs "    return 0;\n" ++ bs "\x7d\n"

/-- The reset performed at the start of translate_to_cpp: both maps
cleared, both counters zeroed. -/
def resetState (_ : GState) : GState :=
  ⟨[], 0, [], 0⟩

/-- translate_to_cpp from compiler.cpp: reset the global state, tokenize,
parse, collect symbols, emit.  The fuel bounds the parser recursion. -/
def translate_to_cpp (fuel : Nat) (mollang_code : List Nat) (g0 : GState) :
    Except CompErr (List Nat) :=
  let g := resetState g0
  match tokenize mollang_code with
  | .error e => .error e
  | .ok toks =>
    match parse_program fuel toks 0 with
    | .error e => .error e
    | .ok (ast, _) =>
      let g1 := collectList ast g
      .ok (generate_cpp_code ast g1)

/-! ## Generic helper lemmas -/

@[simp]
theorem exceptBindOk {ε α β : Type} (a : α) (f : α → Except ε β) :
    (Except.ok a : Except ε α) >>= f = f a := rfl

@[simp]
theorem exceptBindErr {ε α β : Type} (e : ε) (f : α → Except ε β) :
    (Except.error e : Except ε α) >>= f = Except.error e := rfl

/-! ## C1: determinism and reset-correctness of translate_to_cpp -/

/-- C1: compiling a source program twice yields textually identical output,
and the result never depends on the global name state left over from
earlier compilations, because translate_to_cpp starts from the reset that
clears both maps and zeroes both counters.  In particular this holds for
programs of literals and print statements. -/
theorem translate_reset_deterministic (fuel : Nat) (code : List Nat) (g1 g2 : GState) :
    translate_to_cpp fuel code g1 = translate_to_cpp fuel code g2 := rfl

/-! ## C4: flat left-associative expression parsing -/

/-- C4: with one additive and one multiplicative operator in sequence, the
expression parser folds left: a + b * c becomes (a + b) * c and never
a + (b * c); there is a single precedence level. -/
theorem expression_flat_left_assoc (a b c : List Nat) :
    parse_expr 9 [⟨.NUMBER, a⟩, ⟨.KEYWORD, bs "덧셈"⟩, ⟨.NUMBER, b⟩,
        ⟨.KEYWORD, bs "곱셈"⟩, ⟨.NUMBER, c⟩, eofToken] 0 =
      .ok (.binop (.binop (.num a) (bs "+") (.num b)) (bs "*") (.num c), 5) ∧
    ∀ op r p, parse_expr 9 [⟨.NUMBER, a⟩, ⟨.KEYWORD, bs "덧셈"⟩, ⟨.NUMBER, b⟩,
        ⟨.KEYWORD, bs "곱셈"⟩, ⟨.NUMBER, c⟩, eofToken] 0 ≠
      .ok (.binop (.num a) op (.binop (.num b) (bs "*") r), p) := by
  refine ⟨rfl, ?_⟩
  intro op r p h
  rw [show parse_expr 9 [⟨.NUMBER, a⟩, ⟨.KEYWORD, bs "덧셈"⟩, ⟨.NUMBER, b⟩,
        ⟨.KEYWORD, bs "곱셈"⟩, ⟨.NUMBER, c⟩, eofToken] 0 =
      .ok (.binop (.binop (.num a) (bs "+") (.num b)) (bs "*") (.num c), 5) from rfl] at h
  simp at h

/-! ## C10: verbatim splicing of string literals -/

/-- C10: a StringNode emits exactly the wrapper MolObject(std::string("..."))
with the raw token bytes spliced in unchanged, whatever bytes they are; and
the lexer stores the raw span between the quotes verbatim, so a double
quote, backslash or newline in the body reaches the generated document
untouched. -/
theorem string_literal_verbatim :
    (∀ v g, genNode (.str v) g = (bs "MolObject(std::string(\"" ++ v ++ bs "\"))", g)) ∧
    tokenize (bs "'a\"b'") = .ok [⟨.STRING, bs "a\"b"⟩, eofToken] ∧
    tokenize (bs "\"a\\b\nc\"") = .ok [⟨.STRING, bs "a\\b\nc"⟩, eofToken] :=
  ⟨fun _ _ => rfl, rfl, rfl⟩

/-! ## C7: statement dispatch for variable identifiers -/

/-- C7 counterexample: a statement that begins with a variable-pattern
identifier followed by a token that is not the assignment keyword 은 (here
the while keyword 몰) is still accepted as an Assign, because
parse_statement consumes the second token without inspecting it. -/
theorem assign_unchecked_counterexample :
    tokenize (bs "밥 몰 5") =
      .ok [⟨.IDENTIFIER, bs "밥"⟩, ⟨.KEYWORD, bs "몰"⟩, ⟨.NUMBER, bs "5"⟩, eofToken] ∧
    bs "몰" ≠ bs "은" ∧
    parse_program 9 [⟨.IDENTIFIER, bs "밥"⟩, ⟨.KEYWORD, bs "몰"⟩, ⟨.NUMBER, bs "5"⟩, eofToken] 0 =
      .ok ([.assign (bs "밥") (.num (bs "5"))], 3) :=
  ⟨rfl, by decide, rfl⟩

/-- C7 as amended: a statement beginning with a variable-pattern identifier
is always parsed as an Assign; the following token is consumed
unconditionally, whether or not it is the assignment keyword, and the rest
is parsed as the assigned expression.  A statement whose first token
matches no dispatch rule fails with the invalid-statement-start
diagnostic. -/
theorem parse_stmt_dispatch :
    (∀ fuel toks pos t, toks[pos]? = some t → is_variable t.value = true →
      parse_stmt (fuel + 1) toks pos =
        match consumeT toks (pos + 1) with
        | .error e => .error e
        | .ok (_, p2) =>
          match parse_expr fuel toks p2 with
          | .error e => .error e
          | .ok (e, p3) => .ok (.assign t.value e, p3)) ∧
    (∀ fuel toks pos t, toks[pos]? = some t →
      is_variable t.value = false →
      t.value ≠ bs "스크럼" → t.value ≠ bs "입" → t.value ≠ bs "몰" →
      ¬ (bs "캠프" <+: t.value) → t.value ≠ bs "퇴근" →
      parse_stmt (fuel + 1) toks pos = .error (.invalidStatementStart t.value)) := by
  constructor
  · intro fuel toks pos t hget hvar
    have hpeek : peekT toks pos = .ok t := by simp [peekT, hget]
    have hcons : consumeT toks pos = .ok (t, pos + 1) := by simp [consumeT, hget]
    simp only [parse_stmt, hpeek, exceptBindOk, hvar, if_true, hcons]
    cases h2 : consumeT toks (pos + 1) with
    | error e => simp [h2]
    | ok tp =>
      cases h3 : parse_expr fuel toks tp.2 with
      | error e => simp [h2, h3]
      | ok ep => simp [h2, h3]
  · intro fuel toks pos t hget hvar h1 h2 h3 h4 h5
    have hpeek : peekT toks pos = .ok t := by simp [peekT, hget]
    simp [parse_stmt, hpeek, hvar, h1, h2, h3, h4, h5]

/-- C7 witness: the amended dispatch rules applied at concrete inputs. -/
theorem parse_stmt_dispatch_witness :
    parse_stmt 9 [⟨.IDENTIFIER, bs "밥"⟩, ⟨.KEYWORD, bs "몰"⟩, ⟨.NUMBER, bs "5"⟩, eofToken] 0 =
      .ok (.assign (bs "밥") (.num (bs "5")), 3) ∧
    parse_stmt 9 [⟨.KEYWORD, bs "덧셈"⟩, eofToken] 0 =
      .error (.invalidStatementStart (bs "덧셈")) := by
  constructor
  · have h := parse_stmt_dispatch.1 8
      [⟨.IDENTIFIER, bs "밥"⟩, ⟨.KEYWORD, bs "몰"⟩, ⟨.NUMBER, bs "5"⟩, eofToken] 0
      ⟨.IDENTIFIER, bs "밥"⟩ rfl (by decide)
    exact h.trans (by rfl)
  · exact parse_stmt_dispatch.2 8 [⟨.KEYWORD, bs "덧셈"⟩, eofToken] 0
      ⟨.KEYWORD, bs "덧셈"⟩ rfl (by decide) (by decide) (by decide) (by decide)
      (by decide) (by decide)

/-! ## C8: unterminated blocks -/

/-- If the statement loop of parse_block succeeds, some token of the stream
is a close bracket (the one the loop finally consumes). -/
theorem parse_blockLoop_ok_has_close (fuel : Nat) (toks : List Token) :
    ∀ pos res, parse_blockLoop fuel toks pos = .ok res →
      ∃ t, t ∈ toks ∧ t.value = bs "]" := by
  induction fuel with
  | zero => intro pos res h; simp [parse_blockLoop] at h
  | succ fuel ih =>
    intro pos res h
    rw [parse_blockLoop] at h
    cases hget : toks[pos]? with
    | none => simp [peekT, hget] at h
    | some t =>
      have hpeek : peekT toks pos = .ok t := by simp [peekT, hget]
      rw [hpeek] at h
      by_cases hv : t.value = bs "]"
      · exact ⟨t, List.getElem?_mem hget, hv⟩
      · simp only [exceptBindOk, hv, if_false] at h
        cases hs : parse_stmt fuel toks pos with
        | error e => rw [hs] at h; simp at h
        | ok sp =>
          simp only [hs, exceptBindOk] at h
          cases hb : parse_blockLoop fuel toks sp.2 with
          | error e => rw [hb] at h; simp at h
          | ok res2 => exact ih sp.2 res2 hb

/-- C8 counterexample: for the source 입 1 [ the block is unterminated, and
parsing fails not with the out-of-tokens diagnostic but with the
invalid-statement-start diagnostic raised at the END token (whose text is
empty). -/
theorem unterminated_block_diag_counterexample :
    tokenize (bs "입 1 [") =
      .ok [⟨.KEYWORD, bs "입"⟩, ⟨.NUMBER, bs "1"⟩, ⟨.SYMBOL, bs "["⟩, eofToken] ∧
    parse_program 9 [⟨.KEYWORD, bs "입"⟩, ⟨.NUMBER, bs "1"⟩, ⟨.SYMBOL, bs "["⟩, eofToken] 0 =
      .error (.invalidStatementStart []) ∧
    CompErr.invalidStatementStart [] ≠ CompErr.eofPeek ∧
    CompErr.invalidStatementStart [] ≠ CompErr.eofConsume :=
  ⟨rfl, rfl, by decide, by decide⟩

/-- C8 as amended: a block whose close bracket is missing never parses
successfully: if no token of the stream is a close bracket, every
parse_block invocation consumes to the end of the stream and fails with a
diagnostic, which is the out-of-tokens diagnostic in some cases (second
conjunct) but can also be a diagnostic naming the END token. -/
theorem unterminated_block_never_succeeds (toks : List Token)
    (h : ∀ t ∈ toks, t.value ≠ bs "]") :
    (∀ fuel pos res, parse_block fuel toks pos ≠ .ok res) ∧
    parse_block 9 [⟨.SYMBOL, bs "["⟩, ⟨.IDENTIFIER, bs "밥"⟩, eofToken] 0 =
      .error .eofConsume := by
  refine ⟨?_, rfl⟩
  intro fuel pos res hok
  cases fuel with
  | zero => simp [parse_block] at hok
  | succ fuel =>
    rw [parse_block] at hok
    cases hget : toks[pos]? with
    | none => simp [consumeT, hget] at hok
    | some t =>
      have hcons : consumeT toks pos = .ok (t, pos + 1) := by simp [consumeT, hget]
      rw [hcons] at hok
      simp only [exceptBindOk] at hok
      obtain ⟨tc, htc, hval⟩ := parse_blockLoop_ok_has_close fuel toks (pos + 1) res hok
      exact h tc htc hval

/-- C8 witness: the amended statement applied to the concrete unterminated
block stream of 입 1 [. -/
theorem unterminated_block_never_succeeds_witness :
    parse_block 9 [⟨.KEYWORD, bs "입"⟩, ⟨.NUMBER, bs "1"⟩, ⟨.SYMBOL, bs "["⟩, eofToken] 2
      ≠ .ok ([], 4) :=
  (unterminated_block_never_succeeds
    [⟨.KEYWORD, bs "입"⟩, ⟨.NUMBER, bs "1"⟩, ⟨.SYMBOL, bs "["⟩, eofToken]
    (by decide)).1 9 2 ([], 4)

/-! ## C6: word classification by the lexer -/

/-- Spec-side notion, following the claim wording: a word parses as a
base-10 integer when it is an optional sign followed by one or more
decimal digits and nothing else. -/
def isIntegerWordSpec (w : List Nat) : Bool :=
  let t : List Nat :=
    match w with
    | 45 :: r => r
    | 43 :: r => r
    | _ => w
  decide (t ≠ []) && t.all isDigitB

/-- C6 counterexample: the word 1아 is not a base-10 integer, yet the lexer
classifies it as NUMBER because std::stoi accepts a numeric prefix; and the
all-digit word 99999999999999999999 is a base-10 integer, yet the lexer
aborts with the uncaught out-of-range failure instead of producing a
token. -/
theorem tokenize_number_prefix_counterexample :
    (tokenize (bs "1아") = .ok [⟨.NUMBER, bs "1아"⟩, eofToken] ∧
      isIntegerWordSpec (bs "1아") = false) ∧
    (tokenize (bs "99999999999999999999") = .error .stoiOutOfRange ∧
      isIntegerWordSpec (bs "99999999999999999999") = true) :=
  ⟨⟨rfl, rfl⟩, ⟨rfl, rfl⟩⟩

/-- C6 as amended: a single candidate word is classified in priority
order: reserved keyword, then variable pattern, then the stoi-based
numeric rule.  The numeric rule follows std::stoi: a word whose leading
characters (after an optional sign) form one or more digits becomes
NUMBER when the digit run fits the int range, even if other characters
follow; a digit run outside the int range aborts tokenization with the
out-of-range failure; every other word becomes IDENTIFIER. -/
theorem tokenize_word_classification (w : List Nat) (hne : w ≠ [])
    (hbytes : ∀ b ∈ w, wordBreak b = false)
    (hquote : ∀ b, w[0]? = some b → b ≠ 34 ∧ b ≠ 39) :
    tokenize w =
      if w ∈ keywordList then .ok [⟨.KEYWORD, w⟩, eofToken]
      else if is_variable w then .ok [⟨.IDENTIFIER, w⟩, eofToken]
      else
        match stoiB w with
        | .ok _ => .ok [⟨.NUMBER, w⟩, eofToken]
        | .invalid => .ok [⟨.IDENTIFIER, w⟩, eofToken]
        | .range => .error .stoiOutOfRange := by
  obtain ⟨c, rest, rfl⟩ := List.exists_cons_of_ne_nil hne
  have hc := hbytes c (List.mem_cons_self c rest)
  have hcq := hquote c (by simp)
  simp only [wordBreak, Bool.or_eq_false_iff, beq_eq_false_iff_ne, ne_eq] at hc
  have htake : (c :: rest).takeWhile (fun b => ! wordBreak b) = c :: rest :=
    List.takeWhile_eq_self_iff.mpr (by intro b hb; simp [hbytes b hb])
  have hdrop : (c :: rest).dropWhile (fun b => ! wordBreak b) = [] :=
    List.dropWhile_eq_nil_iff.mpr (by intro b hb; simp [hbytes b hb])
  show tokLoop ((c :: rest).length + 1) (c :: rest) = _
  rw [List.length_cons, tokLoop]
  rw [if_neg (by simp [hc.1.1]), if_neg (by simp [hc.1.2, hc.2]),
      if_neg (by simp [hcq.1, hcq.2]), htake, hdrop]
  dsimp only
  by_cases hk : (c :: rest) ∈ keywordList
  · simp [hk, tokLoop, eofToken]
  · rw [if_neg hk, if_neg hk]
    by_cases hv : is_variable (c :: rest)
    · simp [hv, tokLoop, eofToken]
    · rw [if_neg (by simp [hv]), if_neg hv]
      cases hst : stoiB (c :: rest) with
      | ok v => simp [tokLoop, eofToken]
      | invalid => simp [tokLoop, eofToken]
      | range => simp

/-- C6 witness: the amended classification applied to four concrete
words: a keyword, a variable, a plain number and a function-style word. -/
theorem tokenize_word_classification_witness :
    tokenize (bs "스크럼") = .ok [⟨.KEYWORD, bs "스크럼"⟩, eofToken] ∧
    tokenize (bs "바아압") = .ok [⟨.IDENTIFIER, bs "바아압"⟩, eofToken] ∧
    tokenize (bs "-17") = .ok [⟨.NUMBER, bs "-17"⟩, eofToken] ∧
    tokenize (bs "캠프2") = .ok [⟨.IDENTIFIER, bs "캠프2"⟩, eofToken] := by
  refine ⟨?_, ?_, ?_, ?_⟩
  · exact (tokenize_word_classification (bs "스크럼") (by decide) (by decide)
      (by decide)).trans (by rfl)
  · exact (tokenize_word_classification (bs "바아압") (by decide) (by decide)
      (by decide)).trans (by rfl)
  · exact (tokenize_word_classification (bs "-17") (by decide) (by decide)
      (by decide)).trans (by rfl)
  · exact (tokenize_word_classification (bs "캠프2") (by decide) (by decide)
      (by decide)).trans (by rfl)

/-! ## C9: emission is total -/

/-- C9: once lexing and parsing have succeeded, the compilation always
succeeds: symbol collection and code emission are total functions, so
translate_to_cpp returns the generated document and the compiler can only
fail during lexing or parsing, never during emission. -/
theorem emission_total (fuel : Nat) (code : List Nat) (g : GState)
    (toks : List Token) (astp : List ASTNode × Nat)
    (h1 : tokenize code = .ok toks)
    (h2 : parse_program fuel toks 0 = .ok astp) :
    translate_to_cpp fuel code g =
      .ok (generate_cpp_code astp.1 (collectList astp.1 (resetState g))) := by
  obtain ⟨ast, p⟩ := astp
  rw [translate_to_cpp, h1]
  dsimp only
  rw [h2]

/-- C9 witness: a source with one print statement, compiled from a dirty
incoming state, emits successfully. -/
theorem emission_total_witness :
    translate_to_cpp 9 (bs "스크럼 5") ⟨[(bs "x", bs "y")], 7, [], 3⟩ =
      .ok (generate_cpp_code [.print (.num (bs "5"))]
        (collectList [.print (.num (bs "5"))]
          (resetState ⟨[(bs "x", bs "y")], 7, [], 3⟩))) :=
  emission_total 9 (bs "스크럼 5") ⟨[(bs "x", bs "y")], 7, [], 3⟩
    [⟨.KEYWORD, bs "스크럼"⟩, ⟨.NUMBER, bs "5"⟩, eofToken]
    ([.print (.num (bs "5"))], 2) rfl rfl

/-! ## C2: the symbol namer -/

theorem lookup_insertM_self (m : List (List Nat × List Nat)) (k v : List Nat)
    (h : lookupM m k = none) : lookupM (insertM m k v) k = some v := by
  induction m with
  | nil => simp [insertM, lookupM]
  | cons p t ih =>
    obtain ⟨k2, v2⟩ := p
    simp only [lookupM] at h
    by_cases hk : k = k2
    · simp [hk] at h
    · simp only [hk, if_false] at h
      rw [insertM]
      by_cases hlt : bytesLt k k2
      · simp [hlt, lookupM]
      · simp [hlt, hk, lookupM, ih h]

theorem lookup_insertM_ne (m : List (List Nat × List Nat)) (k v q : List Nat)
    (h : q ≠ k) : lookupM (insertM m k v) q = lookupM m q := by
  induction m with
  | nil => simp [insertM, lookupM, h]
  | cons p t ih =>
    obtain ⟨k2, v2⟩ := p
    rw [insertM]
    by_cases hlt : bytesLt k k2
    · simp [hlt, lookupM, h]
    · by_cases hk : k = k2
      · subst hk; simp [hlt, lookupM, h]
      · simp [hlt, hk, lookupM, ih]

theorem digitsVal_append_digit (l : List Nat) (d : Nat) :
    digitsVal (l ++ [d]) = digitsVal l * 10 + (d - 48) := by
  simp [digitsVal, List.foldl_append]

theorem natBytesGo_val (fuel : Nat) : ∀ n, n < 10 ^ fuel →
    digitsVal (natBytesGo fuel n) = n := by
  induction fuel with
  | zero =>
    intro n h
    simp only [pow_zero, Nat.lt_one_iff] at h
    simp [h, natBytesGo, digitsVal]
  | succ fuel ih =>
    intro n h
    rw [natBytesGo]
    by_cases h10 : n < 10
    · simp only [h10, if_true, digitsVal, List.foldl]
      omega
    · rw [if_neg h10, digitsVal_append_digit, ih (n / 10) ?_]
      · omega
      · have hlt : n < 10 * 10 ^ fuel := by
          rw [pow_succ] at h; omega
        exact Nat.div_lt_of_lt_mul hlt

theorem natBytes_val (n : Nat) : digitsVal (natBytes n) = n := by
  apply natBytesGo_val
  have h1 : n < 10 ^ n := Nat.lt_pow_self (by norm_num) n
  have h2 : 10 ^ n ≤ 10 ^ (n + 1) := Nat.pow_le_pow_right (by norm_num) (Nat.le_succ n)
  omega

theorem natBytes_inj {m n : Nat} (h : natBytes m = natBytes n) : m = n := by
  have hm := natBytes_val m
  rw [h, natBytes_val n] at hm
  exact hm.symm

theorem varNameB_inj {i j : Nat} (h : varNameB i = varNameB j) : i = j := by
  apply natBytes_inj
  have h2 : bs "var_" ++ natBytes i = bs "var_" ++ natBytes j := h
  exact List.append_cancel_left h2

theorem funcNameB_inj {i j : Nat} (h : funcNameB i = funcNameB j) : i = j := by
  apply natBytes_inj
  have h2 : bs "func_" ++ natBytes i = bs "func_" ++ natBytes j := h
  exact List.append_cancel_left h2

theorem varNameB_ne_funcNameB (i j : Nat) : varNameB i ≠ funcNameB j := by
  have hv : varNameB i = 118 :: ([97, 114, 95] ++ natBytes i) := rfl
  have hf : funcNameB j = 102 :: ([117, 110, 99, 95] ++ natBytes j) := rfl
  rw [hv, hf]
  simp

/-- Well-formedness of the variable map relative to its counter: every
stored value is a generated variable name with index below the counter,
and no two keys share a value. -/
def VarMapWF (m : List (List Nat × List Nat)) (ctr : Nat) : Prop :=
  (∀ k v, lookupM m k = some v → ∃ i, i < ctr ∧ v = varNameB i) ∧
  (∀ k1 k2 v, lookupM m k1 = some v → lookupM m k2 = some v → k1 = k2)

/-- Well-formedness of the function map relative to its counter. -/
def FuncMapWF (m : List (List Nat × List Nat)) (ctr : Nat) : Prop :=
  (∀ k v, lookupM m k = some v → ∃ i, i < ctr ∧ v = funcNameB i) ∧
  (∀ k1 k2 v, lookupM m k1 = some v → lookupM m k2 = some v → k1 = k2)

/-- The invariant every compilation maintains from the reset state on. -/
def NamerWF (g : GState) : Prop :=
  VarMapWF g.variable_map g.var_counter ∧ FuncMapWF g.function_map g.func_counter

theorem get_var_found {g : GState} {a v : List Nat}
    (h : lookupM g.variable_map a = some v) : get_cpp_var a g = (v, g) := by
  simp [get_cpp_var, h]

theorem get_var_fresh {g : GState} {a : List Nat}
    (h : lookupM g.variable_map a = none) :
    get_cpp_var a g = (varNameB g.var_counter,
      { g with variable_map := insertM g.variable_map a (varNameB g.var_counter),
               var_counter := g.var_counter + 1 }) := by
  simp [get_cpp_var, h]

theorem get_func_found {g : GState} {a v : List Nat}
    (h : lookupM g.function_map a = some v) : get_cpp_func a g = (v, g) := by
  simp [get_cpp_func, h]

theorem get_func_fresh {g : GState} {a : List Nat}
    (h : lookupM g.function_map a = none) :
    get_cpp_func a g = (funcNameB g.func_counter,
      { g with function_map := insertM g.function_map a (funcNameB g.func_counter),
               func_counter := g.func_counter + 1 }) := by
  simp [get_cpp_func, h]

theorem get_var_keeps_func (a : List Nat) (g : GState) :
    (get_cpp_var a g).2.function_map = g.function_map ∧
    (get_cpp_var a g).2.func_counter = g.func_counter := by
  cases h : lookupM g.variable_map a <;> simp [get_cpp_var, h]

theorem get_var_shape (a : List Nat) (g : GState)
    (hw : VarMapWF g.variable_map g.var_counter) :
    ∃ i, i ≤ g.var_counter ∧ (get_cpp_var a g).1 = varNameB i := by
  cases h : lookupM g.variable_map a with
  | none => exact ⟨g.var_counter, le_refl _, by rw [get_var_fresh h]⟩
  | some v =>
    obtain ⟨i, hi, rfl⟩ := hw.1 a v h
    exact ⟨i, le_of_lt hi, by rw [get_var_found h]⟩

theorem get_func_shape (a : List Nat) (g : GState)
    (hw : FuncMapWF g.function_map g.func_counter) :
    ∃ i, i ≤ g.func_counter ∧ (get_cpp_func a g).1 = funcNameB i := by
  cases h : lookupM g.function_map a with
  | none => exact ⟨g.func_counter, le_refl _, by rw [get_func_fresh h]⟩
  | some v =>
    obtain ⟨i, hi, rfl⟩ := hw.1 a v h
    exact ⟨i, le_of_lt hi, by rw [get_func_found h]⟩

/-- C2: within one compilation the name generators are idempotent (the
second lookup of the same source name returns the same generated name and
leaves the whole state, counters included, unchanged) and injective
(distinct source names receive distinct generated names), and the variable
and function namespaces are disjoint even when the same source name is
used in both. -/
theorem namer_idempotent_injective_disjoint (g : GState) (hg : NamerWF g)
    (a b : List Nat) :
    get_cpp_var a (get_cpp_var a g).2 = ((get_cpp_var a g).1, (get_cpp_var a g).2) ∧
    get_cpp_func a (get_cpp_func a g).2 = ((get_cpp_func a g).1, (get_cpp_func a g).2) ∧
    (a ≠ b → (get_cpp_var b (get_cpp_var a g).2).1 ≠ (get_cpp_var a g).1) ∧
    (a ≠ b → (get_cpp_func b (get_cpp_func a g).2).1 ≠ (get_cpp_func a g).1) ∧
    (get_cpp_func b (get_cpp_var a g).2).1 ≠ (get_cpp_var a g).1 := by
  refine ⟨?_, ?_, ?_, ?_, ?_⟩
  · cases h : lookupM g.variable_map a with
    | some v => rw [get_var_found h, get_var_found h]
    | none =>
      rw [get_var_fresh h]
      exact get_var_found (lookup_insertM_self _ _ _ h)
  · cases h : lookupM g.function_map a with
    | some v => rw [get_func_found h, get_func_found h]
    | none =>
      rw [get_func_fresh h]
      exact get_func_found (lookup_insertM_self _ _ _ h)
  · intro hab
    cases h : lookupM g.variable_map a with
    | some v =>
      rw [get_var_found h]
      dsimp only
      cases h2 : lookupM g.variable_map b with
      | some w =>
        rw [get_var_found h2]
        dsimp only
        intro he
        exact hab (hg.1.2 a b v h (he ▸ h2))
      | none =>
        rw [get_var_fresh h2]
        dsimp only
        obtain ⟨i, hi, rfl⟩ := hg.1.1 a v h
        intro he
        have := varNameB_inj he
        omega
    | none =>
      rw [get_var_fresh h]
      dsimp only
      have h2 : lookupM (insertM g.variable_map a (varNameB g.var_counter)) b =
          lookupM g.variable_map b := lookup_insertM_ne _ _ _ _ (Ne.symm hab)
      cases h3 : lookupM g.variable_map b with
      | some w =>
        rw [get_var_found (g := _) (h2.trans h3)]
        dsimp only
        obtain ⟨i, hi, rfl⟩ := hg.1.1 b w h3
        intro he
        have := varNameB_inj he
        omega
      | none =>
        rw [get_var_fresh (g := _) (h2.trans h3)]
        dsimp only
        intro he
        have := varNameB_inj he
        omega
  · intro hab
    cases h : lookupM g.function_map a with
    | some v =>
      rw [get_func_found h]
      dsimp only
      cases h2 : lookupM g.function_map b with
      | some w =>
        rw [get_func_found h2]
        dsimp only
        intro he
        exact hab (hg.2.2 a b v h (he ▸ h2))
      | none =>
        rw [get_func_fresh h2]
        dsimp only
        obtain ⟨i, hi, rfl⟩ := hg.2.1 a v h
        intro he
        have := funcNameB_inj he
        omega
    | none =>
      rw [get_func_fresh h]
      dsimp only
      have h2 : lookupM (insertM g.function_map a (funcNameB g.func_counter)) b =
          lookupM g.function_map b := lookup_insertM_ne _ _ _ _ (Ne.symm hab)
      cases h3 : lookupM g.function_map b with
      | some w =>
        rw [get_func_found (g := _) (h2.trans h3)]
        dsimp only
        obtain ⟨i, hi, rfl⟩ := hg.2.1 b w h3
        intro he
        have := funcNameB_inj he
        omega
      | none =>
        rw [get_func_fresh (g := _) (h2.trans h3)]
        dsimp only
        intro he
        have := funcNameB_inj he
        omega
  · have hkeep := get_var_keeps_func a g
    have hwf : FuncMapWF ((get_cpp_var a g).2).function_map
        ((get_cpp_var a g).2).func_counter := by
      rw [hkeep.1, hkeep.2]; exact hg.2
    obtain ⟨j, _, hj⟩ := get_func_shape b _ hwf
    obtain ⟨i, _, hi⟩ := get_var_shape a g hg.1
    rw [hj, hi]
    exact fun he => varNameB_ne_funcNameB i j he.symm

/-- C2 witness: in the reset state, two distinct variable names receive
distinct generated names. -/
theorem namer_witness :
    (get_cpp_var (bs "바압") (get_cpp_var (bs "밥") ⟨[], 0, [], 0⟩).2).1 ≠
      (get_cpp_var (bs "밥") ⟨[], 0, [], 0⟩).1 :=
  (namer_idempotent_injective_disjoint ⟨[], 0, [], 0⟩
    ⟨⟨fun k v h => by simp [lookupM] at h, fun k1 k2 v h1 h2 => by simp [lookupM] at h1⟩,
     ⟨fun k v h => by simp [lookupM] at h, fun k1 k2 v h1 h2 => by simp [lookupM] at h1⟩⟩
    (bs "밥") (bs "바압")).2.2.1 (by decide)

/-! ## C5: the variable-name pattern -/

/-- Codepoint-level helper: a byte list is zero or more copies of the
filler glyph 아 followed by the suffix glyph 압. -/
def tailVar : List Nat → Bool
  | [a, b, c] => decide ([a, b, c] = bs "압")
  | a :: b :: c :: d :: rest => decide ([a, b, c] = bs "아") && tailVar (d :: rest)
  | _ => false

theorem flatten_replicate_len (n : Nat) :
    ((List.replicate n (bs "아")).flatten).length = 3 * n := by
  induction n with
  | zero => simp
  | succ n ih =>
    simp [List.replicate_succ, ih, show (bs "아").length = 3 from rfl]
    ring

theorem dropCons3 (k a b c : Nat) (l : List Nat) :
    (a :: b :: c :: l).drop (k + 3) = l.drop k := rfl

/-- The indexed middle loop of is_variable checks exactly the three-byte
windows at offsets i, i + 3, ... strictly below length - 3. -/
theorem midLoop_iff (fuel : Nat) : ∀ (t : List Nat) (i : Nat),
    t.length - 3 ≤ i + 3 * fuel →
    (midLoop fuel t i = true ↔
      ∀ j, i + 3 * j < t.length - 3 → (t.drop (i + 3 * j)).take 3 = bs "아") := by
  induction fuel with
  | zero =>
    intro t i h
    simp only [midLoop]
    constructor
    · intro _ j hj
      exact absurd hj (by omega)
    · intro _
      trivial
  | succ fuel ih =>
    intro t i h
    rw [midLoop]
    by_cases hlt : i < t.length - 3
    · rw [if_pos hlt, Bool.and_eq_true, decide_eq_true_eq,
        ih t (i + 3) (by omega)]
      constructor
      · rintro ⟨hw, hrest⟩ j hj
        cases j with
        | zero => simpa using hw
        | succ j =>
          have heq : i + 3 * (j + 1) = i + 3 + 3 * j := by ring
          rw [heq]
          exact hrest j (by omega)
      · intro hall
        refine ⟨by simpa using hall 0 (by omega), ?_⟩
        intro j hj
        have heq : i + 3 + 3 * j = i + 3 * (j + 1) := by ring
        rw [heq]
        exact hall (j + 1) (by omega)
    · rw [if_neg hlt]
      constructor
      · intro _ j hj
        exact absurd hj (by omega)
      · intro _
        rfl

/-- The byte-window conditions of the middle loop, together with the
three-byte suffix check, are equivalent to the structural scan tailVar. -/
theorem tailVar_windows_aux : ∀ (N : Nat) (u : List Nat), u.length ≤ N → 3 ≤ u.length →
    ((u.drop (u.length - 3) = bs "압" ∧
      ∀ j, 3 * j < u.length - 3 → (u.drop (3 * j)).take 3 = bs "아") ↔
      tailVar u = true) := by
  intro N
  induction N with
  | zero =>
    intro u hN h3
    omega
  | succ N ih =>
    intro u hN h3
    rcases u with _ | ⟨a, u⟩
    · simp at h3
    rcases u with _ | ⟨b, u⟩
    · simp at h3
    rcases u with _ | ⟨c, u⟩
    · simp at h3
    rcases u with _ | ⟨d, u⟩
    · -- u = [a, b, c]
      simp only [tailVar, List.length_cons, List.length_nil, decide_eq_true_eq]
      constructor
      · rintro ⟨hsuf, _⟩
        simpa using hsuf
      · intro hs
        refine ⟨by simpa using hs, ?_⟩
        intro j hj
        omega
    rcases u with _ | ⟨e, u⟩
    · -- u = [a, b, c, d]
      constructor
      · rintro ⟨hsuf, hwin⟩
        have h0 := hwin 0 (by simp)
        rw [show bs "아" = [236, 149, 132] from rfl] at h0
        rw [show bs "압" = [236, 149, 149] from rfl] at hsuf
        simp at h0 hsuf
        omega
      · intro ht
        rw [show tailVar [a, b, c, d] = (decide ([a, b, c] = bs "아") && tailVar [d]) from rfl,
          show tailVar [d] = false from rfl] at ht
        simp at ht
    rcases u with _ | ⟨f, u⟩
    · -- u = [a, b, c, d, e]
      constructor
      · rintro ⟨hsuf, hwin⟩
        have h0 := hwin 0 (by simp)
        rw [show bs "아" = [236, 149, 132] from rfl] at h0
        rw [show bs "압" = [236, 149, 149] from rfl] at hsuf
        simp at h0 hsuf
        omega
      · intro ht
        rw [show tailVar [a, b, c, d, e] = (decide ([a, b, c] = bs "아") && tailVar [d, e]) from rfl,
          show tailVar [d, e] = false from rfl] at ht
        simp at ht
    · -- u = a :: b :: c :: d :: e :: f :: u, length at least six
      set v : List Nat := d :: e :: f :: u with hv
      have hv3 : 3 ≤ v.length := by simp [hv]
      have hlen : (a :: b :: c :: v).length = v.length + 3 := by simp
      have IH := ih v (by simp [hv] at hN ⊢; omega) hv3
      have hdropu : (a :: b :: c :: v).drop 3 = v := rfl
      have hsuf_eq : (a :: b :: c :: v).drop ((a :: b :: c :: v).length - 3) =
          v.drop (v.length - 3) := by
        have h1 : (a :: b :: c :: v).length - 3 = (v.length - 3) + 3 := by
          rw [hlen]; omega
        rw [h1]
        exact dropCons3 (v.length - 3) a b c v
      have htv : tailVar (a :: b :: c :: v) =
          (decide ([a, b, c] = bs "아") && tailVar v) := rfl
      rw [htv]
      constructor
      · rintro ⟨hsuf, hwin⟩
        have h0 : [a, b, c] = bs "아" := by simpa using hwin 0 (by rw [hlen]; omega)
        rw [Bool.and_eq_true, decide_eq_true_eq]
        refine ⟨h0, IH.mp ⟨hsuf_eq ▸ hsuf, ?_⟩⟩
        intro j hj
        have := hwin (j + 1) (by rw [hlen]; omega)
        have heq : 3 * (j + 1) = 3 * j + 3 := by ring
        rw [heq, dropCons3] at this
        exact this
      · rintro ht
        rw [Bool.and_eq_true, decide_eq_true_eq] at ht
        obtain ⟨h0, htail⟩ := ht
        obtain ⟨hsufv, hwinv⟩ := IH.mpr htail
        refine ⟨hsuf_eq ▸ hsufv, ?_⟩
        intro j hj
        cases j with
        | zero => simpa using h0
        | succ j =>
          have heq : 3 * (j + 1) = 3 * j + 3 := by ring
          rw [heq, dropCons3]
          exact hwinv j (by rw [hlen] at hj; omega)

/-- tailVar recognises exactly the words made of replicated filler glyphs
followed by the suffix glyph. -/
theorem tailVar_shape_aux : ∀ (N : Nat) (u : List Nat), u.length ≤ N →
    (tailVar u = true ↔ ∃ n, u = (List.replicate n (bs "아")).flatten ++ bs "압") := by
  intro N
  induction N with
  | zero =>
    intro u hN
    rcases u with _ | ⟨a, u⟩
    · constructor
      · intro h
        simp [tailVar] at h
      · rintro ⟨n, hn⟩
        have hl := congrArg List.length hn
        simp only [List.length_nil, List.length_append, flatten_replicate_len,
          show (bs "압").length = 3 from rfl] at hl
        omega
    · simp at hN
  | succ N ih =>
    intro u hN
    rcases u with _ | ⟨a, u⟩
    · constructor
      · intro h
        simp [tailVar] at h
      · rintro ⟨n, hn⟩
        have hl := congrArg List.length hn
        simp only [List.length_nil, List.length_append, flatten_replicate_len,
          show (bs "압").length = 3 from rfl] at hl
        omega
    rcases u with _ | ⟨b, u⟩
    · constructor
      · intro h
        simp [tailVar] at h
      · rintro ⟨n, hn⟩
        have hl := congrArg List.length hn
        simp only [List.length_cons, List.length_nil, List.length_append,
          flatten_replicate_len, show (bs "압").length = 3 from rfl] at hl
        omega
    rcases u with _ | ⟨c, u⟩
    · constructor
      · intro h
        simp [tailVar] at h
      · rintro ⟨n, hn⟩
        have hl := congrArg List.length hn
        simp only [List.length_cons, List.length_nil, List.length_append,
          flatten_replicate_len, show (bs "압").length = 3 from rfl] at hl
        omega
    rcases u with _ | ⟨d, u⟩
    · -- the word [a, b, c]
      rw [show tailVar [a, b, c] = decide ([a, b, c] = bs "압") from rfl,
        decide_eq_true_eq]
      constructor
      · intro h
        exact ⟨0, by simpa using h⟩
      · rintro ⟨n, hn⟩
        cases n with
        | zero => simpa using hn
        | succ n =>
          have hl := congrArg List.length hn
          simp only [List.length_cons, List.length_nil, List.length_append,
            flatten_replicate_len, show (bs "압").length = 3 from rfl] at hl
          omega
    · -- a word of length at least four
      have IH := ih (d :: u) (by simp at hN ⊢; omega)
      rw [show tailVar (a :: b :: c :: d :: u) =
          (decide ([a, b, c] = bs "아") && tailVar (d :: u)) from rfl,
        Bool.and_eq_true, decide_eq_true_eq]
      constructor
      · rintro ⟨h0, htail⟩
        obtain ⟨n, hn⟩ := IH.mp htail
        refine ⟨n + 1, ?_⟩
        have hx : [a, b, c] ++ (d :: u) =
            bs "아" ++ ((List.replicate n (bs "아")).flatten ++ bs "압") := by
          rw [h0, hn]
        simpa [List.replicate_succ, List.append_assoc] using hx
      · rintro ⟨n, hn⟩
        cases n with
        | zero =>
          have hl := congrArg List.length hn
          simp only [List.length_cons, List.length_nil, List.length_append,
            List.replicate, List.flatten_nil, show (bs "압").length = 3 from rfl] at hl
          omega
        | succ n =>
          rw [List.replicate_succ, List.flatten_cons, List.append_assoc,
            show bs "아" = [236, 149, 132] from rfl] at hn
          simp only [List.cons_append, List.nil_append, List.cons.injEq] at hn
          obtain ⟨ha, hb, hc, htail⟩ := hn
          subst ha; subst hb; subst hc
          exact ⟨rfl, IH.mpr ⟨n, htail⟩⟩

/-- C5: is_variable accepts exactly the reserved glyph 밥 or a word of the
codepoint shape 바 (아)* 압; the byte-offset loop of the source is
equivalent to this codepoint-based check, and the shape forces at least
two code points with total byte length a multiple of three. -/
theorem is_variable_codepoint_shape (t : List Nat) :
    is_variable t = true ↔
      (t = bs "밥" ∨
        ∃ n, t = bs "바" ++ (List.replicate n (bs "아")).flatten ++ bs "압") := by
  by_cases hbap : t = bs "밥"
  · simp [is_variable, hbap]
  · rw [is_variable, if_neg hbap]
    by_cases hc : 6 ≤ t.length ∧ t.take 3 = bs "바" ∧ t.drop (t.length - 3) = bs "압"
    · rw [if_pos hc]
      obtain ⟨h6, hpre, hsuf⟩ := hc
      rw [midLoop_iff t.length t 3 (by omega)]
      have htu : t = bs "바" ++ t.drop 3 := by
        conv_lhs => rw [← List.take_append_drop 3 t]
        rw [hpre]
      have hulen : (t.drop 3).length = t.length - 3 := by simp
      have hsufu : (t.drop 3).drop ((t.drop 3).length - 3) = bs "압" := by
        rw [hulen, List.drop_drop, show 3 + (t.length - 3 - 3) = t.length - 3 from by omega,
          hsuf]
      have hwineq : (∀ j, 3 + 3 * j < t.length - 3 → (t.drop (3 + 3 * j)).take 3 = bs "아")
          ↔ (∀ j, 3 * j < (t.drop 3).length - 3 →
              ((t.drop 3).drop (3 * j)).take 3 = bs "아") := by
        constructor
        · intro h j hj
          rw [List.drop_drop]
          exact h j (by omega)
        · intro h j hj
          have := h j (by omega)
          rw [List.drop_drop] at this
          exact this
      rw [hwineq]
      have hB := tailVar_windows_aux (t.drop 3).length (t.drop 3) (le_refl _) (by omega)
      have hC := tailVar_shape_aux (t.drop 3).length (t.drop 3) (le_refl _)
      constructor
      · intro hwin
        obtain ⟨n, hn⟩ := hC.mp (hB.mp ⟨hsufu, hwin⟩)
        exact Or.inr ⟨n, htu.trans (by rw [hn, ← List.append_assoc])⟩
      · rintro (h | ⟨n, hn⟩)
        · exact absurd h hbap
        · have hdrop3 : t.drop 3 = (List.replicate n (bs "아")).flatten ++ bs "압" := by
            rw [hn, List.append_assoc, show (3 : Nat) = (bs "바").length from rfl]
            exact List.drop_left _ _
          exact (hB.mpr (hC.mpr ⟨n, hdrop3⟩)).2
    · rw [if_neg hc]
      simp only [Bool.false_eq_true, false_iff]
      rintro (h | ⟨n, hn⟩)
      · exact hbap h
      · subst hn
        apply hc
        have hflen : ((List.replicate n (bs "아")).flatten).length = 3 * n :=
          flatten_replicate_len n
        refine ⟨?_, ?_, ?_⟩
        · simp [hflen, show (bs "바").length = 3 from rfl, show (bs "압").length = 3 from rfl]
          omega
        · rw [List.append_assoc, show (3 : Nat) = (bs "바").length from rfl]
          exact List.take_left _ _
        · have hlen2 : (bs "바" ++ (List.replicate n (bs "아")).flatten ++ bs "압").length - 3
              = (bs "바" ++ (List.replicate n (bs "아")).flatten).length := by
            simp [hflen, show (bs "바").length = 3 from rfl,
              show (bs "압").length = 3 from rfl]
            omega
          rw [hlen2]
          exact List.drop_left _ _

/-! ## C3: the shape of the generated document -/

mutual

/-- The variable names mentioned by a node, in collection order. -/
def varsOfN : ASTNode → List (List Nat)
  | .num _ => []
  | .str _ => []
  | .varRef n => [n]
  | .input => []
  | .binop l _ r => varsOfN l ++ varsOfN r
  | .assign n e => n :: varsOfN e
  | .print e => varsOfN e
  | .ifS c b => varsOfN c ++ varsOfL b
  | .whileS c b => varsOfN c ++ varsOfL b
  | .funcdef _ b => varsOfL b
  | .funccall _ => []
  | .ret e => varsOfN e

/-- The variable names mentioned by a statement sequence. -/
def varsOfL : List ASTNode → List (List Nat)
  | [] => []
  | h :: t => varsOfN h ++ varsOfL t

end

mutual

/-- The function names mentioned by a node. -/
def funcsOfN : ASTNode → List (List Nat)
  | .num _ => []
  | .str _ => []
  | .varRef _ => []
  | .input => []
  | .binop l _ r => funcsOfN l ++ funcsOfN r
  | .assign _ e => funcsOfN e
  | .print e => funcsOfN e
  | .ifS c b => funcsOfN c ++ funcsOfL b
  | .whileS c b => funcsOfN c ++ funcsOfL b
  | .funcdef n b => n :: funcsOfL b
  | .funccall n => [n]
  | .ret e => funcsOfN e

/-- The function names mentioned by a statement sequence. -/
def funcsOfL : List ASTNode → List (List Nat)
  | [] => []
  | h :: t => funcsOfN h ++ funcsOfL t

end

/-- One state extends another: every name known to the maps stays known. -/
def Pres (g g2 : GState) : Prop :=
  (∀ q, (lookupM g.variable_map q).isSome = true →
    (lookupM g2.variable_map q).isSome = true) ∧
  (∀ q, (lookupM g.function_map q).isSome = true →
    (lookupM g2.function_map q).isSome = true)

theorem pres_refl (g : GState) : Pres g g :=
  ⟨fun _ h => h, fun _ h => h⟩

theorem pres_trans {g1 g2 g3 : GState} (h1 : Pres g1 g2) (h2 : Pres g2 g3) :
    Pres g1 g3 :=
  ⟨fun q h => h2.1 q (h1.1 q h), fun q h => h2.2 q (h1.2 q h)⟩

theorem get_var_pres (a : List Nat) (g : GState) : Pres g (get_cpp_var a g).2 := by
  cases h : lookupM g.variable_map a with
  | some v =>
    rw [get_var_found h]
    exact pres_refl g
  | none =>
    rw [get_var_fresh h]
    constructor
    · intro q hq
      have hqa : q ≠ a := by
        intro he
        rw [he, h] at hq
        simp at hq
      show (lookupM (insertM g.variable_map a (varNameB g.var_counter)) q).isSome = true
      rw [lookup_insertM_ne _ _ _ _ hqa]
      exact hq
    · intro q hq
      exact hq

theorem get_func_pres (a : List Nat) (g : GState) : Pres g (get_cpp_func a g).2 := by
  cases h : lookupM g.function_map a with
  | some v =>
    rw [get_func_found h]
    exact pres_refl g
  | none =>
    rw [get_func_fresh h]
    constructor
    · intro q hq
      exact hq
    · intro q hq
      have hqa : q ≠ a := by
        intro he
        rw [he, h] at hq
        simp at hq
      show (lookupM (insertM g.function_map a (funcNameB g.func_counter)) q).isSome = true
      rw [lookup_insertM_ne _ _ _ _ hqa]
      exact hq

theorem get_var_self_some (a : List Nat) (g : GState) :
    (lookupM (get_cpp_var a g).2.variable_map a).isSome = true := by
  cases h : lookupM g.variable_map a with
  | some v => rw [get_var_found h]; simp [h]
  | none =>
    rw [get_var_fresh h]
    show (lookupM (insertM g.variable_map a (varNameB g.var_counter)) a).isSome = true
    rw [lookup_insertM_self _ _ _ h]
    rfl

theorem get_func_self_some (a : List Nat) (g : GState) :
    (lookupM (get_cpp_func a g).2.function_map a).isSome = true := by
  cases h : lookupM g.function_map a with
  | some v => rw [get_func_found h]; simp [h]
  | none =>
    rw [get_func_fresh h]
    show (lookupM (insertM g.function_map a (funcNameB g.func_counter)) a).isSome = true
    rw [lookup_insertM_self _ _ _ h]
    rfl

mutual

theorem collectNode_pres (nd : ASTNode) (g : GState) : Pres g (collectNode nd g) := by
  cases nd with
  | num v => exact pres_refl g
  | str v => exact pres_refl g
  | varRef n => exact get_var_pres n g
  | input => exact pres_refl g
  | binop l op r => exact pres_trans (collectNode_pres l g) (collectNode_pres r _)
  | assign n e => exact pres_trans (get_var_pres n g) (collectNode_pres e _)
  | print e => exact collectNode_pres e g
  | ifS c b => exact pres_trans (collectNode_pres c g) (collectList_pres b _)
  | whileS c b => exact pres_trans (collectNode_pres c g) (collectList_pres b _)
  | funcdef n b => exact pres_trans (get_func_pres n g) (collectList_pres b _)
  | funccall n => exact get_func_pres n g
  | ret e => exact collectNode_pres e g

theorem collectList_pres (l : List ASTNode) (g : GState) : Pres g (collectList l g) := by
  cases l with
  | nil => exact pres_refl g
  | cons h t => exact pres_trans (collectNode_pres h g) (collectList_pres t _)

end

mutual

/-- After collecting a node, every name the node mentions is registered. -/
theorem collectNode_covers (nd : ASTNode) (g : GState) :
    (∀ v ∈ varsOfN nd, (lookupM (collectNode nd g).variable_map v).isSome = true) ∧
    (∀ f ∈ funcsOfN nd, (lookupM (collectNode nd g).function_map f).isSome = true) := by
  cases nd with
  | num v => exact ⟨by simp [varsOfN], by simp [funcsOfN]⟩
  | str v => exact ⟨by simp [varsOfN], by simp [funcsOfN]⟩
  | varRef n =>
    refine ⟨?_, by simp [funcsOfN]⟩
    intro v hv
    simp [varsOfN] at hv
    subst hv
    exact get_var_self_some v g
  | input => exact ⟨by simp [varsOfN], by simp [funcsOfN]⟩
  | binop l op r =>
    have hl := collectNode_covers l g
    have hr := collectNode_covers r (collectNode l g)
    have hp := collectNode_pres r (collectNode l g)
    constructor
    · intro v hv
      rw [varsOfN] at hv
      rcases List.mem_append.mp hv with h | h
      · exact hp.1 v (hl.1 v h)
      · exact hr.1 v h
    · intro f hf
      rw [funcsOfN] at hf
      rcases List.mem_append.mp hf with h | h
      · exact hp.2 f (hl.2 f h)
      · exact hr.2 f h
  | assign n e =>
    have he := collectNode_covers e (get_cpp_var n g).2
    have hp := collectNode_pres e (get_cpp_var n g).2
    constructor
    · intro v hv
      rw [varsOfN] at hv
      rcases List.mem_cons.mp hv with h | h
      · subst h
        exact hp.1 v (get_var_self_some v g)
      · exact he.1 v h
    · intro f hf
      rw [funcsOfN] at hf
      exact he.2 f hf
  | print e => exact collectNode_covers e g
  | ifS c b =>
    have hc := collectNode_covers c g
    have hb := collectList_covers b (collectNode c g)
    have hp := collectList_pres b (collectNode c g)
    constructor
    · intro v hv
      rw [varsOfN] at hv
      rcases List.mem_append.mp hv with h | h
      · exact hp.1 v (hc.1 v h)
      · exact hb.1 v h
    · intro f hf
      rw [funcsOfN] at hf
      rcases List.mem_append.mp hf with h | h
      · exact hp.2 f (hc.2 f h)
      · exact hb.2 f h
  | whileS c b =>
    have hc := collectNode_covers c g
    have hb := collectList_covers b (collectNode c g)
    have hp := collectList_pres b (collectNode c g)
    constructor
    · intro v hv
      rw [varsOfN] at hv
      rcases List.mem_append.mp hv with h | h
      · exact hp.1 v (hc.1 v h)
      · exact hb.1 v h
    · intro f hf
      rw [funcsOfN] at hf
      rcases List.mem_append.mp hf with h | h
      · exact hp.2 f (hc.2 f h)
      · exact hb.2 f h
  | funcdef n b =>
    have hb := collectList_covers b (get_cpp_func n g).2
    have hp := collectList_pres b (get_cpp_func n g).2
    constructor
    · intro v hv
      rw [varsOfN] at hv
      exact hb.1 v hv
    · intro f hf
      rw [funcsOfN] at hf
      rcases List.mem_cons.mp hf with h | h
      · subst h
        exact hp.2 f (get_func_self_some f g)
      · exact hb.2 f h
  | funccall n =>
    refine ⟨by simp [varsOfN], ?_⟩
    intro f hf
    simp [funcsOfN] at hf
    subst hf
    exact get_func_self_some f g
  | ret e => exact collectNode_covers e g

/-- After collecting a statement sequence, every mentioned name is
registered. -/
theorem collectList_covers (l : List ASTNode) (g : GState) :
    (∀ v ∈ varsOfL l, (lookupM (collectList l g).variable_map v).isSome = true) ∧
    (∀ f ∈ funcsOfL l, (lookupM (collectList l g).function_map f).isSome = true) := by
  cases l with
  | nil => exact ⟨by simp [varsOfL], by simp [funcsOfL]⟩
  | cons h t =>
    have hh := collectNode_covers h g
    have ht := collectList_covers t (collectNode h g)
    have hp := collectList_pres t (collectNode h g)
    constructor
    · intro v hv
      rw [varsOfL] at hv
      rcases List.mem_append.mp hv with hm | hm
      · exact hp.1 v (hh.1 v hm)
      · exact ht.1 v hm
    · intro f hf
      rw [funcsOfL] at hf
      rcases List.mem_append.mp hf with hm | hm
      · exact hp.2 f (hh.2 f hm)
      · exact ht.2 f hm

end

/-- All the given variable and function names are registered in the
state. -/
def NamesReg (vs fs : List (List Nat)) (g : GState) : Prop :=
  (∀ v ∈ vs, (lookupM g.variable_map v).isSome = true) ∧
  (∀ f ∈ fs, (lookupM g.function_map f).isSome = true)

theorem namesReg_append {vs1 vs2 fs1 fs2 : List (List Nat)} {g : GState} :
    NamesReg (vs1 ++ vs2) (fs1 ++ fs2) g ↔
      NamesReg vs1 fs1 g ∧ NamesReg vs2 fs2 g := by
  simp only [NamesReg, List.forall_mem_append]
  tauto

theorem namesReg_mono {vs fs : List (List Nat)} {g g2 : GState}
    (h : NamesReg vs fs g) (hp : Pres g g2) : NamesReg vs fs g2 :=
  ⟨fun v hv => hp.1 v (h.1 v hv), fun f hf => hp.2 f (h.2 f hf)⟩

/-- Every statement of a collected sequence has all its names registered
in the final state of the collection pass. -/
theorem mem_collectList_reg (l : List ASTNode) (g : GState) :
    ∀ nd ∈ l, NamesReg (varsOfN nd) (funcsOfN nd) (collectList l g) := by
  induction l generalizing g with
  | nil => intro nd h; simp at h
  | cons h t ih =>
    intro nd hm
    rcases List.mem_cons.mp hm with hm | hm
    · subst hm
      have hcov := collectNode_covers nd g
      have hp := collectList_pres t (collectNode nd g)
      exact namesReg_mono ⟨hcov.1, hcov.2⟩ hp
    · exact ih (collectNode h g) nd hm

mutual

/-- When every name a node mentions is already registered, its generate
method leaves the namer state unchanged. -/
theorem genNode_state_id (nd : ASTNode) (g : GState)
    (h : NamesReg (varsOfN nd) (funcsOfN nd) g) : (genNode nd g).2 = g := by
  cases nd with
  | num v => rfl
  | str v => rfl
  | varRef n =>
    obtain ⟨v, hv⟩ := Option.isSome_iff_exists.mp (h.1 n (by simp [varsOfN]))
    show (get_cpp_var n g).2 = g
    rw [get_var_found hv]
  | input => rfl
  | binop l op r =>
    obtain ⟨hl, hr⟩ := namesReg_append.mp (by rw [varsOfN, funcsOfN] at h; exact h)
    have e1 : (genNode l g).2 = g := genNode_state_id l g hl
    calc (genNode (.binop l op r) g).2 = (genNode r (genNode l g).2).2 := rfl
      _ = (genNode r g).2 := by rw [e1]
      _ = g := genNode_state_id r g hr
  | assign n e =>
    obtain ⟨v, hv⟩ := Option.isSome_iff_exists.mp (h.1 n (by simp [varsOfN]))
    have he : NamesReg (varsOfN e) (funcsOfN e) g :=
      ⟨fun w hw => h.1 w (by rw [varsOfN]; exact List.mem_cons_of_mem _ hw),
       fun f hf => h.2 f (by rwa [funcsOfN])⟩
    have e0 : (get_cpp_var n g).2 = g := by rw [get_var_found hv]
    calc (genNode (.assign n e) g).2 = (genNode e (get_cpp_var n g).2).2 := rfl
      _ = (genNode e g).2 := by rw [e0]
      _ = g := genNode_state_id e g he
  | print e =>
    exact genNode_state_id e g (by rw [varsOfN, funcsOfN] at h; exact h)
  | ifS c b =>
    obtain ⟨hc, hb⟩ := namesReg_append.mp (by rw [varsOfN, funcsOfN] at h; exact h)
    have e1 : (genNode c g).2 = g := genNode_state_id c g hc
    calc (genNode (.ifS c b) g).2 = (genSeq b (genNode c g).2).2 := rfl
      _ = (genSeq b g).2 := by rw [e1]
      _ = g := genSeq_state_id b g hb
  | whileS c b =>
    obtain ⟨hc, hb⟩ := namesReg_append.mp (by rw [varsOfN, funcsOfN] at h; exact h)
    have e1 : (genNode c g).2 = g := genNode_state_id c g hc
    calc (genNode (.whileS c b) g).2 = (genSeq b (genNode c g).2).2 := rfl
      _ = (genSeq b g).2 := by rw [e1]
      _ = g := genSeq_state_id b g hb
  | funcdef n b =>
    obtain ⟨v, hv⟩ := Option.isSome_iff_exists.mp (h.2 n (by simp [funcsOfN]))
    have hb : NamesReg (varsOfL b) (funcsOfL b) g :=
      ⟨fun w hw => h.1 w (by rwa [varsOfN]),
       fun f hf => h.2 f (by rw [funcsOfN]; exact List.mem_cons_of_mem _ hf)⟩
    have e0 : (get_cpp_func n g).2 = g := by rw [get_func_found hv]
    calc (genNode (.funcdef n b) g).2 = (genSeqF b (get_cpp_func n g).2).2 := rfl
      _ = (genSeqF b g).2 := by rw [e0]
      _ = g := genSeqF_state_id b g hb
  | funccall n =>
    obtain ⟨v, hv⟩ := Option.isSome_iff_exists.mp (h.2 n (by simp [funcsOfN]))
    show (get_cpp_func n g).2 = g
    rw [get_func_found hv]
  | ret e =>
    exact genNode_state_id e g (by rw [varsOfN, funcsOfN] at h; exact h)

/-- Body rendering for if and while leaves the state unchanged when all
names are registered. -/
theorem genSeq_state_id (l : List ASTNode) (g : GState)
    (h : NamesReg (varsOfL l) (funcsOfL l) g) : (genSeq l g).2 = g := by
  cases l with
  | nil => rfl
  | cons nd t =>
    obtain ⟨h1, h2⟩ := namesReg_append.mp (by rw [varsOfL, funcsOfL] at h; exact h)
    have e1 : (genNode nd g).2 = g := genNode_state_id nd g h1
    calc (genSeq (nd :: t) g).2 = (genSeq t (genNode nd g).2).2 := rfl
      _ = (genSeq t g).2 := by rw [e1]
      _ = g := genSeq_state_id t g h2

/-- Body rendering for function definitions leaves the state unchanged
when all names are registered. -/
theorem genSeqF_state_id (l : List ASTNode) (g : GState)
    (h : NamesReg (varsOfL l) (funcsOfL l) g) : (genSeqF l g).2 = g := by
  cases l with
  | nil => rfl
  | cons nd t =>
    obtain ⟨h1, h2⟩ := namesReg_append.mp (by rw [varsOfL, funcsOfL] at h; exact h)
    have e1 : (genNode nd g).2 = g := genNode_state_id nd g h1
    calc (genSeqF (nd :: t) g).2 = (genSeqF t (genNode nd g).2).2 := rfl
      _ = (genSeqF t g).2 := by rw [e1]
      _ = g := genSeqF_state_id t g h2

end

/-- With all names registered, the function-definition pass is a pure fold
over the FuncDef statements, at the fixed state. -/
theorem genTops_pure (l : List ASTNode) (g : GState)
    (h : ∀ nd ∈ l, NamesReg (varsOfN nd) (funcsOfN nd) g) :
    genTops l g = (((l.filter fun nd => isFuncDef nd).map
      (fun nd => (genNode nd g).1 ++ bs "\n\n")).flatten, g) := by
  induction l with
  | nil => rfl
  | cons nd t ih =>
    have e1 : genNode nd g = ((genNode nd g).1, g) := by
      conv_lhs => rw [← Prod.mk.eta (p := genNode nd g)]
      rw [genNode_state_id nd g (h nd (List.mem_cons_self nd t))]
    have ih2 := ih (fun nd2 hm => h nd2 (List.mem_cons_of_mem _ hm))
    by_cases hf : isFuncDef nd
    · rw [genTops, if_pos hf, e1]
      dsimp only
      rw [ih2]
      simp [List.filter_cons, hf]
    · rw [genTops, if_neg hf, ih2]
      simp [List.filter_cons, hf]

/-- With all names registered, the main pass is a pure fold over the
non-FuncDef statements, at the fixed state. -/
theorem genMains_pure (l : List ASTNode) (g : GState)
    (h : ∀ nd ∈ l, NamesReg (varsOfN nd) (funcsOfN nd) g) :
    genMains l g = (((l.filter fun nd => ! isFuncDef nd).map
      (fun nd => bs "    " ++ (genNode nd g).1 ++ bs "\n")).flatten, g) := by
  induction l with
  | nil => rfl
  | cons nd t ih =>
    have e1 : genNode nd g = ((genNode nd g).1, g) := by
      conv_lhs => rw [← Prod.mk.eta (p := genNode nd g)]
      rw [genNode_state_id nd g (h nd (List.mem_cons_self nd t))]
    have ih2 := ih (fun nd2 hm => h nd2 (List.mem_cons_of_mem _ hm))
    by_cases hf : isFuncDef nd
    · rw [genMains, if_pos hf, ih2]
      simp [List.filter_cons, hf]
    · rw [genMains, if_neg hf, e1]
      dsimp only
      rw [ih2]
      simp [List.filter_cons, hf]

theorem lookupM_mem (m : List (List Nat × List Nat)) (k v : List Nat)
    (h : lookupM m k = some v) : (k, v) ∈ m := by
  induction m with
  | nil => simp [lookupM] at h
  | cons p t ih =>
    obtain ⟨k2, v2⟩ := p
    rw [lookupM] at h
    by_cases hk : k = k2
    · rw [if_pos hk] at h
      subst hk
      injection h with h2
      subst h2
      exact List.mem_cons_self _ _
    · rw [if_neg hk] at h
      exact List.mem_cons_of_mem _ (ih h)

theorem protoLines_infix (m : List (List Nat × List Nat)) (f gname : List Nat)
    (hm : (f, gname) ∈ m) :
    (bs "MolObject " ++ gname ++ bs "();\n") <:+:
      (m.map (fun p => bs "MolObject " ++ p.2 ++ bs "();\n")).flatten := by
  induction m with
  | nil => simp at hm
  | cons p t ih =>
    rcases List.mem_cons.mp hm with he | he
    · subst he
      simp only [List.map_cons, List.flatten_cons]
      exact (List.prefix_append _ _).isInfix
    · simp only [List.map_cons, List.flatten_cons]
      exact (ih he).trans (List.suffix_append _ _).isInfix

/-- Every registered function has its prototype line inside the
forward-declaration block. -/
theorem protoSec_infix (g : GState) (f gname : List Nat)
    (h : lookupM g.function_map f = some gname) :
    (bs "MolObject " ++ gname ++ bs "();\n") <:+: protoSec g := by
  rw [protoSec]
  exact protoLines_infix _ f _ (lookupM_mem _ _ _ h)

/-- C3: after the symbol-collection pass, the generated document is the
fixed preamble, then the forward declarations, then the global variable
declarations, then the function bodies in AST encounter order (each ending
with the implicit empty-value return), then a main function holding
exactly the non-FuncDef top-level statements in source order and returning
success; every registered function name, in particular any function called
before its definition, has its prototype line inside the declaration
block, which precedes every function body in the document. -/
theorem generate_document_structure (ast : List ASTNode) (g0 g : GState)
    (hg : g = collectList ast g0) :
    generate_cpp_code ast g =
      preamble ++ protoSec g ++ bs "\n" ++ globalSec g ++ bs "\n" ++
        ((ast.filter fun nd => isFuncDef nd).map
          (fun nd => (genNode nd g).1 ++ bs "\n\n")).flatten ++
        bs "int main() \x7b\n" ++
        ((ast.filter fun nd => ! isFuncDef nd).map
          (fun nd => bs "    " ++ (genNode nd g).1 ++ bs "\n")).flatten ++
        bs "    return 0;\n" ++ bs "\x7d\n" ∧
    (∀ nd ∈ ast, isFuncDef nd = true →
      ∃ s, (genNode nd g).1 = s ++ bs "return MolObject();\n\x7d") ∧
    (∀ f gname, lookupM g.function_map f = some gname →
      (bs "MolObject " ++ gname ++ bs "();\n") <:+: protoSec g) ∧
    (∀ f ∈ funcsOfL ast, (lookupM g.function_map f).isSome = true) := by
  have hreg : ∀ nd ∈ ast, NamesReg (varsOfN nd) (funcsOfN nd) g := by
    rw [hg]; exact mem_collectList_reg ast g0
  refine ⟨?_, ?_, ?_, ?_⟩
  · rw [generate_cpp_code, genTops_pure ast g hreg]
    rw [genMains_pure ast g hreg]
  · intro nd hm hf
    cases nd with
    | funcdef n b =>
      exact ⟨bs "MolObject " ++ (get_cpp_func n g).1 ++ bs "() \x7b\n" ++
        (genSeqF b (get_cpp_func n g).2).1, rfl⟩
    | num v => simp [isFuncDef] at hf
    | str v => simp [isFuncDef] at hf
    | varRef n => simp [isFuncDef] at hf
    | input => simp [isFuncDef] at hf
    | binop l op r => simp [isFuncDef] at hf
    | assign n e => simp [isFuncDef] at hf
    | print e => simp [isFuncDef] at hf
    | ifS c b => simp [isFuncDef] at hf
    | whileS c b => simp [isFuncDef] at hf
    | funccall n => simp [isFuncDef] at hf
    | ret e => simp [isFuncDef] at hf
  · intro f gname h
    exact protoSec_infix g f gname h
  · intro f hf
    rw [hg]
    exact (collectList_covers ast g0).2 f hf

/-- C3 witness: in a program that calls 캠프1 before defining it, the
collected state registers the function and its prototype line sits inside
the forward-declaration block of the generated document. -/
theorem generate_document_structure_witness :
    lookupM (collectList [ASTNode.funccall (bs "캠프1"), .print (.num (bs "3")),
        .funcdef (bs "캠프1") [.print (.num (bs "5"))]] ⟨[], 0, [], 0⟩).function_map
      (bs "캠프1") = some (funcNameB 0) ∧
    (bs "MolObject " ++ funcNameB 0 ++ bs "();\n") <:+:
      protoSec (collectList [ASTNode.funccall (bs "캠프1"), .print (.num (bs "3")),
        .funcdef (bs "캠프1") [.print (.num (bs "5"))]] ⟨[], 0, [], 0⟩) := by
  refine ⟨rfl, ?_⟩
  exact (generate_document_structure
    [ASTNode.funccall (bs "캠프1"), .print (.num (bs "3")),
      .funcdef (bs "캠프1") [.print (.num (bs "5"))]] ⟨[], 0, [], 0⟩ _ rfl).2.2.1
    (bs "캠프1") (funcNameB 0) rfl
